import Mathlib

/-!
Shallow embedding of the key-resolution core of libkleo
(`src/kleo/keyresolvercore.cpp`) together with theorems settling the
claims about its specification.

The embedding follows the source file closely:

* `ValidEncryptionKey`, `ValidSigningKey`, `keyValidity`, `minimumValidity`
  mirror the file-static helpers;
* `KeyResolverCore.RState` mirrors the fields of `KeyResolverCore::Private`;
* one Lean function per member function, with the external collaborators
  (GnuPG address normalization, the key cache) supplied as an `Env` record
  of functions, exactly the calls the C++ code makes.

`QMap` is modelled as an association list kept sorted by key (QMap iterates
in ascending key order); `QMap<Protocol, …>` values, whose keys range over
the three protocol values only, are modelled as records with one field per
protocol (`OpenPGP < CMS < UnknownProtocol` in GpgME's enum, which fixes
the iteration order used when such a map is traversed).
-/

namespace Kleo

/-- GpgME protocol values used by the resolver: `OpenPGP`, `CMS` and
`UnknownProtocol` (the latter also serves as "unspecified/mixed"). -/
inductive Protocol where
  | openpgp
  | cms
  | unknown
deriving DecidableEq, Repr

/-- GpgME `UserID::Validity` scale, as the `int` the C++ code works with. -/
def Validity.unknownV : Int := 0

def Validity.undefinedV : Int := 1

def Validity.neverV : Int := 2

def Validity.marginalV : Int := 3

def Validity.fullV : Int := 4

def Validity.ultimateV : Int := 5

/-- Strict lexicographic order on character lists by code point, used to
model `QString::operator<` (which orders `QMap<QString, …>` iteration). -/
def charListLt : List Char → List Char → Bool
  | [], [] => false
  | [], _ :: _ => true
  | _ :: _, [] => false
  | c :: cs, d :: ds =>
      if c.toNat < d.toNat then true
      else if d.toNat < c.toNat then false
      else charListLt cs ds

/-- `QString::operator<` on the underlying characters. -/
def strLt (s t : String) : Bool := charListLt s.data t.data

/-- `QString::toLower` on one character (ASCII range; the addresses this
code compares are ASCII mail addresses). -/
def lowerChar (c : Char) : Char :=
  if 65 ≤ c.toNat ∧ c.toNat ≤ 90 then Char.ofNat (c.toNat + 32) else c

/-- `QString::toLower`. -/
def lowerString (s : String) : String := ⟨s.data.map lowerChar⟩

/-- A user id of a certificate: the address it attests to and the trust
validity of that attestation. -/
structure UserID where
  addrSpec : String
  validity : Int
deriving DecidableEq, Repr

/-- The attributes of a GpgME `Key` that `keyresolvercore.cpp` consumes. -/
structure Key where
  isNull : Bool
  isRevoked : Bool
  isExpired : Bool
  isDisabled : Bool
  canEncrypt : Bool
  canSign : Bool
  hasSecret : Bool
  protocol : Protocol
  fingerprint : String
  userIDs : List UserID
  isDeVs : Bool
deriving DecidableEq, Repr

/-- The null `Key()` returned by the cache when a lookup fails. -/
def Key.null : Key :=
  { isNull := true, isRevoked := false, isExpired := false, isDisabled := false
    canEncrypt := false, canSign := false, hasSecret := false
    protocol := .unknown, fingerprint := "", userIDs := [], isDeVs := false }

/-- `ValidEncryptionKey` from `keyresolvercore.cpp`: not null, not revoked,
not expired, not disabled, and able to encrypt. -/
def ValidEncryptionKey (key : Key) : Bool :=
  !(key.isNull || key.isRevoked || key.isExpired || key.isDisabled || !key.canEncrypt)

/-- `ValidSigningKey` from `keyresolvercore.cpp`: additionally requires
signing capability and secret material. -/
def ValidSigningKey (key : Key) : Bool :=
  !(key.isNull || key.isRevoked || key.isExpired || key.isDisabled ||
    !key.canSign || !key.hasSecret)

/-- Helper for `keyValidity`: walk the user ids, returning the validity of
the first id whose (lower-cased) address matches, else the running maximum
of all validities. -/
def keyValidityAux (uids : List UserID) (address : String) (overall : Int) : Int :=
  match uids with
  | [] => overall
  | uid :: rest =>
      if lowerString uid.addrSpec = lowerString address then uid.validity
      else keyValidityAux rest address (max overall uid.validity)

/-- `keyValidity` from `keyresolvercore.cpp`: the validity of the UID
matching the address or, if no UID matches, the maximal validity of all
UIDs (starting from `UserID::Validity::Unknown`). -/
def keyValidity (key : Key) (address : String) : Int :=
  keyValidityAux key.userIDs address Validity.unknownV

/-- `minimumValidity` from `keyresolvercore.cpp`: fold `min` of
`keyValidity` over the keys, starting from `Ultimate + 1`; a result above
`Ultimate` (only possible for an empty list) collapses to `Unknown`. -/
def minimumValidity (keys : List Key) (address : String) : Int :=
  let minValidity :=
    keys.foldl (fun validity key => min validity (keyValidity key address))
      (Validity.ultimateV + 1)
  if minValidity ≤ Validity.ultimateV then minValidity else Validity.unknownV

/-- Insert/assign into an association list sorted by key
(`QMap` assignment `m[k] = v`). -/
def alInsert {α : Type} (l : List (String × α)) (k : String) (v : α) :
    List (String × α) :=
  match l with
  | [] => [(k, v)]
  | (k', v') :: rest =>
      if strLt k k' then (k, v) :: (k', v') :: rest
      else if k = k' then (k, v) :: rest
      else (k', v') :: alInsert rest k v

/-- Lookup in an association list (`QMap::value`, as an `Option`). -/
def alLookup {α : Type} (l : List (String × α)) (k : String) : Option α :=
  match l with
  | [] => none
  | (k', v) :: rest => if k = k' then some v else alLookup rest k

/-- `QMap::operator[]` followed by a mutation: default-construct the entry
if absent, then apply `f` to it. -/
def alModify {α : Type} (l : List (String × α)) (k : String) (d : α)
    (f : α → α) : List (String × α) :=
  match l with
  | [] => [(k, f d)]
  | (k', v) :: rest =>
      if strLt k k' then (k, f d) :: (k', v) :: rest
      else if k = k' then (k', f v) :: rest
      else (k', v) :: alModify rest k d f

/-- The inner `QMap<Protocol, std::vector<Key>>` of `mEncKeys`: one list of
keys per protocol; an absent entry and an empty list are observationally
identical for this code (every read uses `value()`/`operator[]`, which
default to an empty vector, and the output accessor skips empty vectors),
so both are modelled as `[]`. -/
structure EncEntry where
  pgp : List Key := []
  cms : List Key := []
  unknown : List Key := []
deriving DecidableEq, Repr

def EncEntry.get (e : EncEntry) : Protocol → List Key
  | .openpgp => e.pgp
  | .cms => e.cms
  | .unknown => e.unknown

def EncEntry.set (e : EncEntry) (p : Protocol) (ks : List Key) : EncEntry :=
  match p with
  | .openpgp => { e with pgp := ks }
  | .cms => { e with cms := ks }
  | .unknown => { e with unknown := ks }

/-- `mSigKeys : QMap<Protocol, std::vector<Key>>` — here `contains` is
observable (`resolveSign` skips a protocol that was explicitly set), so the
entries are `Option`s. -/
structure SigMap where
  pgp : Option (List Key) := none
  cms : Option (List Key) := none
  unknown : Option (List Key) := none
deriving DecidableEq, Repr

def SigMap.get (m : SigMap) : Protocol → Option (List Key)
  | .openpgp => m.pgp
  | .cms => m.cms
  | .unknown => m.unknown

def SigMap.insert (m : SigMap) (p : Protocol) (ks : List Key) : SigMap :=
  match p with
  | .openpgp => { m with pgp := some ks }
  | .cms => { m with cms := some ks }
  | .unknown => { m with unknown := some ks }

def SigMap.remove (m : SigMap) (p : Protocol) : SigMap :=
  match p with
  | .openpgp => { m with pgp := none }
  | .cms => { m with cms := none }
  | .unknown => { m with unknown := none }

/-- `QMap::value`: the stored list, or empty when absent. -/
def SigMap.value (m : SigMap) (p : Protocol) : List Key :=
  (m.get p).getD []

/-- The inner `QMap<Protocol, QStringList>` of `mOverrides`. -/
structure OverrideEntry where
  pgp : Option (List String) := none
  cms : Option (List String) := none
  unknown : Option (List String) := none
deriving DecidableEq, Repr

def OverrideEntry.set (o : OverrideEntry) (p : Protocol) (fprs : List String) :
    OverrideEntry :=
  match p with
  | .openpgp => { o with pgp := some fprs }
  | .cms => { o with cms := some fprs }
  | .unknown => { o with unknown := some fprs }

/-- The entries of an override map in `QMap` iteration order: ascending by
the GpgME enum, i.e. `OpenPGP`, then `CMS`, then `UnknownProtocol`. -/
def OverrideEntry.protocolList (o : OverrideEntry) :
    List (Protocol × List String) :=
  (match o.pgp with
   | some fprs => [(Protocol.openpgp, fprs)]
   | none => []) ++
  (match o.cms with
   | some fprs => [(Protocol.cms, fprs)]
   | none => []) ++
  (match o.unknown with
   | some fprs => [(Protocol.unknown, fprs)]
   | none => [])

/-- The external collaborators of the resolver, as the exact calls the C++
code makes: GnuPG address normalization (`UserID::addrSpecFromString`,
empty string = failure) and the two key-cache lookups. -/
structure Env where
  addrSpecFromString : String → String
  findByKeyIDOrFingerprint : String → Key
  findBestByMailBox : String → Protocol → Bool → Bool → List Key

namespace KeyResolverCore

/-- The fields of `KeyResolverCore::Private`. -/
structure RState where
  mSender : String := ""
  mRecipients : List String := []
  mSigKeys : SigMap := {}
  mEncKeys : List (String × EncEntry) := []
  mOverrides : List (String × OverrideEntry) := []
  mFormat : Protocol := .unknown
  mFatalErrors : List String := []
  mEncrypt : Bool := true
  mSign : Bool := true
  mAllowMixed : Bool := true
  mPreferredProtocol : Protocol := .unknown
  mMinimumValidity : Int := Validity.marginalV
  mCompliance : String := ""

/-- The `Private` constructor: encrypt/sign flags, forced format, and the
compliance mode read from configuration. -/
def init (encrypt sign : Bool) (fmt : Protocol) (compliance : String) :
    RState :=
  { mEncrypt := encrypt, mSign := sign, mFormat := fmt,
    mCompliance := compliance }

/-- `Private::isAcceptableSigningKey`. -/
def isAcceptableSigningKey (st : RState) (key : Key) : Bool :=
  if !ValidSigningKey key then false
  else if st.mCompliance = "de-vs" && !key.isDeVs then false
  else true

/-- `Private::isAcceptableEncryptionKey` (the C++ default argument
`address = QString()` is passed explicitly as `""`). -/
def isAcceptableEncryptionKey (st : RState) (key : Key) (address : String) :
    Bool :=
  if !ValidEncryptionKey key then false
  else if st.mCompliance = "de-vs" && !key.isDeVs then false
  else if address = "" then true
  else key.userIDs.any (fun uid =>
    uid.addrSpec = address && decide (uid.validity ≥ st.mMinimumValidity))

/-- `Private::addRecipients`: normalize each address; a failure appends a
fatal-error message and skips the address, a success appends the
normalized address to `mRecipients` and creates empty per-protocol
encryption slots in `mEncKeys`. This is the per-address loop body. -/
def addRecipientStep (env : Env) (acc : RState) (addr : String) : RState :=
  let normalized := env.addrSpecFromString addr
  if normalized = "" then
    { acc with mFatalErrors := acc.mFatalErrors ++
        ["The mail address for " ++ addr ++ " could not be extracted"] }
  else
    { acc with
        mRecipients := acc.mRecipients ++ [normalized],
        mEncKeys := alInsert acc.mEncKeys normalized {} }

/-- `Private::addRecipients`: no-op without encryption, else fold
`addRecipientStep` over the addresses. -/
def addRecipients (env : Env) (st : RState) (addresses : List String) :
    RState :=
  if !st.mEncrypt then st
  else addresses.foldl (addRecipientStep env) st

/-- `Private::setSender`: on normalization failure only record a fatal
error; otherwise remember the normalized sender (when signing) and feed the
original address through `addRecipients` (encrypt-to-self). -/
def setSender (env : Env) (st : RState) (address : String) : RState :=
  let normalized := env.addrSpecFromString address
  if normalized = "" then
    { st with mFatalErrors := st.mFatalErrors ++
        ["The sender address " ++ address ++ " could not be extracted"] }
  else
    let st' := if st.mSign then { st with mSender := normalized } else st
    addRecipients env st' [address]

/-- `Private::setOverrideKeys`: normalize each override address and assign
the fingerprint list into `mOverrides[address][protocol]`. -/
def setOverrideKeys (env : Env) (st : RState)
    (overrides : List (Protocol × List (String × List String))) : RState :=
  overrides.foldl (fun acc pEntry =>
    pEntry.2.foldl (fun acc aEntry =>
      let normalizedAddress := env.addrSpecFromString aEntry.1
      let newOverrides := alModify acc.mOverrides normalizedAddress {}
        (fun o => o.set pEntry.1 aEntry.2)
      { acc with mOverrides := newOverrides }) acc) st

/-- One fingerprint of one override entry: look the key up; if found,
append it to the slot of the entry protocol — or of the key's own protocol
when the entry protocol is `UnknownProtocol`. -/
def applyOverrideFpr (env : Env) (st : RState) (address : String)
    (protocol : Protocol) (fprOrId : String) : RState :=
  let key := env.findByKeyIDOrFingerprint fprOrId
  if key.isNull then st
  else
    let resolvedFmt := if protocol = Protocol.unknown then key.protocol
                       else protocol
    let newEncKeys := alModify st.mEncKeys address {}
      (fun e => e.set resolvedFmt (e.get resolvedFmt ++ [key]))
    { st with mEncKeys := newEncKeys }

/-- One protocol entry of one override address: skipped when it names the
protocol opposite to a caller-forced single protocol. -/
def applyOverrideProtocol (env : Env) (st : RState) (address : String)
    (pf : Protocol × List String) : RState :=
  if (st.mFormat = .openpgp ∧ pf.1 = .cms) ∨
     (st.mFormat = .cms ∧ pf.1 = .openpgp) then st
  else pf.2.foldl (fun acc fpr => applyOverrideFpr env acc address pf.1 fpr) st

/-- `Private::resolveOverrides`: no-op without encryption; otherwise apply
every override whose address is a known recipient, in `QMap` iteration
order. -/
def resolveOverrides (env : Env) (st : RState) : RState :=
  if !st.mEncrypt then st
  else
    st.mOverrides.foldl (fun acc aEntry =>
      if acc.mRecipients.contains aEntry.1 then
        aEntry.2.protocolList.foldl
          (fun acc pf => applyOverrideProtocol env acc aEntry.1 pf) acc
      else acc) st

/-- `Private::resolveSign`: skip if explicitly set; abort without storing
anything if any non-null candidate is unacceptable; otherwise store the
full candidate list when it is non-empty with a non-null head. -/
def resolveSign (env : Env) (st : RState) (proto : Protocol) : RState :=
  if (st.mSigKeys.get proto).isSome then st
  else
    let keys := env.findBestByMailBox st.mSender proto true false
    if keys.any (fun key => !key.isNull && !isAcceptableSigningKey st key) then
      st
    else
      match keys with
      | [] => st
      | key0 :: _ =>
          if key0.isNull then st
          else { st with mSigKeys := st.mSigKeys.insert proto keys }

/-- `Private::setSigningKeys`: look each fingerprint up and append the key
under its own protocol (only when signing is enabled). -/
def setSigningKeys (env : Env) (st : RState) (fingerprints : List String) :
    RState :=
  if st.mSign then
    fingerprints.foldl (fun acc fpr =>
      let key := env.findByKeyIDOrFingerprint fpr
      if key.isNull then acc
      else
        let newList := acc.mSigKeys.value key.protocol ++ [key]
        { acc with mSigKeys := acc.mSigKeys.insert key.protocol newList }) st
  else st

/-- `Private::resolveRecipient`: empty or null-headed result resolves to
nothing; a single candidate must individually pass the per-address
acceptability test; a group of two or more is taken whole iff every member
passes the acceptability test with an empty address (skipping the
per-address validity check), else rejected whole. -/
def resolveRecipient (env : Env) (st : RState) (address : String)
    (protocol : Protocol) : List Key :=
  let keys := env.findBestByMailBox address protocol false true
  match keys with
  | [] => []
  | key0 :: rest =>
      if key0.isNull then []
      else if rest.isEmpty then
        if isAcceptableEncryptionKey st key0 address then key0 :: rest else []
      else if (key0 :: rest).any
          (fun key => !isAcceptableEncryptionKey st key "") then []
      else key0 :: rest

/-- The per-address body of `Private::resolveEnc`: fill the slot for
`proto` when it is still empty. -/
def resolveEncEntry (env : Env) (st : RState) (proto : Protocol)
    (address : String) (e : EncEntry) : EncEntry :=
  if (e.get proto).isEmpty then
    e.set proto (resolveRecipient env st address proto)
  else e

/-- `Private::resolveEnc`: fill every still-empty `(address, proto)` slot
with the result of `resolveRecipient`. -/
def resolveEnc (env : Env) (st : RState) (proto : Protocol) : RState :=
  { st with mEncKeys := st.mEncKeys.map (fun ae =>
      (ae.1, resolveEncEntry env st proto ae.1 ae.2)) }

/-- The per-address body of `Private::mergeEncryptionKeys`. -/
def mergeEntry (preferredProtocol : Protocol) (address : String)
    (e : EncEntry) : EncEntry :=
  if !e.unknown.isEmpty then e
  else if e.pgp.isEmpty && e.cms.isEmpty then e
  else if !e.pgp.isEmpty && e.cms.isEmpty then { e with unknown := e.pgp }
  else if e.pgp.isEmpty && !e.cms.isEmpty then { e with unknown := e.cms }
  else
    let validityPGP := minimumValidity e.pgp address
    let validityCMS := minimumValidity e.cms address
    if validityPGP > validityCMS ∨
       (validityPGP = validityCMS ∧ preferredProtocol = .openpgp) then
      { e with unknown := e.pgp }
    else if validityCMS > validityPGP ∨
       (validityCMS = validityPGP ∧ preferredProtocol = .cms) then
      { e with unknown := e.cms }
    else { e with unknown := e.pgp }

/-- `Private::mergeEncryptionKeys`: apply `mergeEntry` to every address. -/
def mergeEncryptionKeys (st : RState) : RState :=
  { st with mEncKeys := st.mEncKeys.map (fun ae =>
      (ae.1, mergeEntry st.mPreferredProtocol ae.1 ae.2)) }

/-- `Private::unresolvedRecipients`: the addresses whose slot for the given
protocol is empty. -/
def unresolvedRecipients (st : RState) (protocol : Protocol) : List String :=
  st.mEncKeys.filterMap (fun ae =>
    if (ae.2.get protocol).isEmpty then some ae.1 else none)

/-- The removal loops at the end of `Private::resolve`: drop one protocol's
signing entry and every address's encryption slot for it. -/
def removeProtocolKeys (st : RState) (proto : Protocol) : RState :=
  { st with
      mSigKeys := st.mSigKeys.remove proto,
      mEncKeys := st.mEncKeys.map (fun ae => (ae.1, ae.2.set proto [])) }

/-- The `mFormat != CMS` block of `Private::resolve`: OpenPGP signing and
encryption resolution. -/
def resolveStagePGP (env : Env) (st : RState) : RState :=
  if st.mFormat ≠ .cms then
    resolveEnc env (resolveSign env st .openpgp) .openpgp
  else st

/-- The `mFormat != OpenPGP` block of `Private::resolve`: CMS signing and
encryption resolution. -/
def resolveStageCMS (env : Env) (st : RState) : RState :=
  if st.mFormat ≠ .openpgp then
    resolveEnc env (resolveSign env st .cms) .cms
  else st

/-- The conditional merge step of `Private::resolve`. -/
def resolveStageMerge (st : RState) : RState :=
  if st.mAllowMixed ∧ st.mFormat = .unknown then mergeEncryptionKeys st
  else st

/-- `Private::resolve`, returning the C++ `bool` (`true` = automatic
resolution done, `false` = user input needed) together with the final
state the result accessors read. -/
def resolve (env : Env) (st : RState) : Bool × RState :=
  if !st.mSign && !st.mEncrypt then (true, st)
  else
    let st1 := resolveOverrides env st
    let st2 := resolveStagePGP env st1
    let unresolvedPGP := unresolvedRecipients st2 .openpgp
    let pgpOnly := unresolvedPGP.isEmpty &&
      (!st2.mSign || (st2.mSigKeys.get .openpgp).isSome)
    let st3 := resolveStageCMS env st2
    let unresolvedCMS := unresolvedRecipients st3 .cms
    let cmsOnly := unresolvedCMS.isEmpty &&
      (!st3.mSign || (st3.mSigKeys.get .cms).isSome)
    let st4 := resolveStageMerge st3
    let needsUser := (!pgpOnly && !cmsOnly) &&
      (unresolvedPGP.any (fun a => unresolvedCMS.contains a) ||
       (st4.mSign && !((st4.mSigKeys.get .openpgp).isSome &&
                       (st4.mSigKeys.get .cms).isSome)))
    if needsUser then (false, st4)
    else if pgpOnly && cmsOnly then
      if st4.mPreferredProtocol = .cms then
        (true, removeProtocolKeys st4 .openpgp)
      else (true, removeProtocolKeys st4 .cms)
    else if pgpOnly then (true, removeProtocolKeys st4 .cms)
    else if cmsOnly then (true, removeProtocolKeys st4 .openpgp)
    else (true, st4)

/-- `KeyResolverCore::setAllowMixedProtocols`. -/
def setAllowMixedProtocols (st : RState) (allowMixed : Bool) : RState :=
  { st with mAllowMixed := allowMixed }

/-- `KeyResolverCore::setPreferredProtocol`. -/
def setPreferredProtocol (st : RState) (proto : Protocol) : RState :=
  { st with mPreferredProtocol := proto }

/-- `KeyResolverCore::setMinimumValidity`. -/
def setMinimumValidity (st : RState) (validity : Int) : RState :=
  { st with mMinimumValidity := validity }

/-- `KeyResolverCore::signingKeys`. -/
def signingKeys (st : RState) : SigMap := st.mSigKeys

/-- `KeyResolverCore::normalizedSender`. -/
def normalizedSender (st : RState) : String := st.mSender

/-- `KeyResolverCore::encryptionKeys`, restricted to one protocol: the
per-address lists that are non-empty for that protocol (the C++ accessor
groups by protocol and skips empty vectors). -/
def encryptionKeys (st : RState) (protocol : Protocol) :
    List (String × List Key) :=
  st.mEncKeys.filterMap (fun ae =>
    if (ae.2.get protocol).isEmpty then none else some (ae.1, ae.2.get protocol))

/-- One complete caller configuration of a resolution request, as the
public `KeyResolverCore` interface accepts it. -/
structure RequestConfig where
  encrypt : Bool := true
  sign : Bool := true
  format : Protocol := .unknown
  compliance : String := ""
  allowMixed : Bool := true
  preferredProtocol : Protocol := .unknown
  minimumValidity : Int := Validity.marginalV
  sender : String := ""
  recipients : List String := []
  signingFingerprints : List String := []
  overrides : List (Protocol × List (String × List String)) := []

/-- Build a fresh resolver state from a configuration, applying the public
setters in the usual caller order. -/
def configureResolver (env : Env) (cfg : RequestConfig) : RState :=
  let st := init cfg.encrypt cfg.sign cfg.format cfg.compliance
  let st := setAllowMixedProtocols st cfg.allowMixed
  let st := setPreferredProtocol st cfg.preferredProtocol
  let st := setMinimumValidity st cfg.minimumValidity
  let st := setSender env st cfg.sender
  let st := addRecipients env st cfg.recipients
  let st := setSigningKeys env st cfg.signingFingerprints
  setOverrideKeys env st cfg.overrides

/-- One complete resolution run: configure a fresh resolver and resolve. -/
def runRequest (env : Env) (cfg : RequestConfig) : Bool × RState :=
  resolve env (configureResolver env cfg)

end KeyResolverCore

/-! Concrete certificate-store snapshots and resolver states used to
evaluate the code on specific scenarios. -/

/-- A sender certificate usable for signing and encryption, OpenPGP,
ultimate validity on `s@x`. -/
def kPgpS : Key :=
  { isNull := false, isRevoked := false, isExpired := false,
    isDisabled := false, canEncrypt := true, canSign := true,
    hasSecret := true, protocol := .openpgp, fingerprint := "FP1",
    userIDs := [⟨"s@x", Validity.ultimateV⟩], isDeVs := true }

/-- The CMS counterpart of `kPgpS`, full validity on `s@x`. -/
def kCmsS : Key :=
  { kPgpS with
    protocol := .cms
    fingerprint := "FC1"
    userIDs := [⟨"s@x", Validity.fullV⟩] }

/-- Store for the both-protocols-complete scenario: `s@x` has `kPgpS` and
`kCmsS`; nothing else exists. -/
def envBoth : Env :=
  { addrSpecFromString := fun a => a
    findByKeyIDOrFingerprint := fun _ => Key.null
    findBestByMailBox := fun addr proto _ _ =>
      if addr = "s@x" then
        if proto = .openpgp then [kPgpS]
        else if proto = .cms then [kCmsS]
        else []
      else [] }

/-- Sign-and-encrypt resolver with mixing disabled and no preferred
protocol, sender `s@x` (also the sole recipient, via encrypt-to-self). -/
def stBoth : KeyResolverCore.RState :=
  KeyResolverCore.setSender envBoth
    (KeyResolverCore.setAllowMixedProtocols
      (KeyResolverCore.init true true .unknown "") false) "s@x"

/-- An encryption-capable CMS certificate for `r@x`, full validity. -/
def kCmsR : Key :=
  { isNull := false, isRevoked := false, isExpired := false,
    isDisabled := false, canEncrypt := true, canSign := false,
    hasSecret := false, protocol := .cms, fingerprint := "FC2",
    userIDs := [⟨"r@x", Validity.fullV⟩], isDeVs := true }

/-- Store for the override-contradicts-forced-protocol scenario: the
fingerprint `FC2` resolves to the CMS certificate `kCmsR`; no mailbox
lookup finds anything. -/
def envForcedPGP : Env :=
  { addrSpecFromString := fun a => a
    findByKeyIDOrFingerprint := fun fpr => if fpr = "FC2" then kCmsR
                                           else Key.null
    findBestByMailBox := fun _ _ _ _ => [] }

/-- Encrypt-only resolver with the caller-forced protocol OpenPGP,
recipient `r@x`, and an `Unspecified`-protocol override mapping `r@x` to
the CMS certificate `FC2`. -/
def stForcedPGP : KeyResolverCore.RState :=
  KeyResolverCore.setOverrideKeys envForcedPGP
    (KeyResolverCore.addRecipients envForcedPGP
      (KeyResolverCore.init true false .openpgp "") ["r@x"])
    [(Protocol.unknown, [("r@x", ["FC2"])])]

/-- First override certificate for the precedence scenario (OpenPGP). -/
def kOv1 : Key :=
  { kCmsR with protocol := .openpgp, fingerprint := "F1" }

/-- Second override certificate for the precedence scenario (OpenPGP). -/
def kOv2 : Key :=
  { kCmsR with protocol := .openpgp, fingerprint := "F2" }

/-- Store for the override-precedence scenario: `F1` and `F2` resolve to
the two OpenPGP certificates above. -/
def envPrec : Env :=
  { addrSpecFromString := fun a => a
    findByKeyIDOrFingerprint := fun fpr =>
      if fpr = "F1" then kOv1 else if fpr = "F2" then kOv2 else Key.null
    findBestByMailBox := fun _ _ _ _ => [] }

/-- Encrypt-only resolver with recipient `r@x`, a protocol-specific
(OpenPGP) override `F1` and an `Unspecified`-protocol override `F2` for
the same address. -/
def stPrec : KeyResolverCore.RState :=
  KeyResolverCore.setOverrideKeys envPrec
    (KeyResolverCore.addRecipients envPrec
      (KeyResolverCore.init true false .unknown "") ["r@x"])
    [(Protocol.openpgp, [("r@x", ["F1"])]),
     (Protocol.unknown, [("r@x", ["F2"])])]

/-- A store with nothing in it and identity normalization. -/
def envNull : Env :=
  { addrSpecFromString := fun a => a
    findByKeyIDOrFingerprint := fun _ => Key.null
    findBestByMailBox := fun _ _ _ _ => [] }

/-- Encrypt-only resolver whose sole recipient `r@x` has no certificate at
all in the store. -/
def stNoCert : KeyResolverCore.RState :=
  KeyResolverCore.addRecipients envNull
    (KeyResolverCore.init true false .unknown "") ["r@x"]

/-- An OpenPGP encryption certificate for `r@x` with full validity. -/
def kPgpR : Key :=
  { kCmsR with protocol := .openpgp, fingerprint := "FP2" }

/-- An expired OpenPGP certificate for `r@x`. -/
def kPgpRExpired : Key :=
  { kPgpR with fingerprint := "FP3", isExpired := true }

/-- Store whose best-candidate lookup for `r@x` under OpenPGP yields a
two-certificate group with one expired member. -/
def envGroup : Env :=
  { addrSpecFromString := fun a => a
    findByKeyIDOrFingerprint := fun _ => Key.null
    findBestByMailBox := fun addr proto _ _ =>
      if addr = "r@x" ∧ proto = .openpgp then [kPgpR, kPgpRExpired]
      else [] }

/-- Store whose best signing candidate for `s@x` under OpenPGP is the
single acceptable certificate `kPgpS`. -/
def envSign : Env :=
  { addrSpecFromString := fun a => a
    findByKeyIDOrFingerprint := fun _ => Key.null
    findBestByMailBox := fun addr proto secret _ =>
      if addr = "s@x" ∧ proto = .openpgp ∧ secret = true then [kPgpS]
      else [] }

/-- Sign-only resolver state with sender `s@x`. -/
def stSign : KeyResolverCore.RState :=
  KeyResolverCore.setSender envSign
    (KeyResolverCore.init false true .unknown "") "s@x"

/-- Normalization that fails on the address `bad` and is the identity
elsewhere; the store holds an OpenPGP certificate for `good@x`. -/
def envBad : Env :=
  { addrSpecFromString := fun a => if a = "bad" then "" else a
    findByKeyIDOrFingerprint := fun _ => Key.null
    findBestByMailBox := fun addr proto _ _ =>
      if addr = "good@x" ∧ proto = .openpgp then
        [{ kPgpR with userIDs := [⟨"good@x", Validity.fullV⟩] }]
      else [] }

/-- Encrypt-only resolver fed one non-normalizable and one normalizable
recipient address. -/
def stBad : KeyResolverCore.RState :=
  KeyResolverCore.addRecipients envBad
    (KeyResolverCore.init true false .unknown "") ["bad", "good@x"]

/-- A resolver state holding one recipient entry with resolved OpenPGP and
CMS lists of equal minimum validity and an empty `Unspecified` slot, for
exercising the merge tie-break. -/
def stMergeTie : KeyResolverCore.RState :=
  { mEncKeys := [("r@x", { pgp := [kPgpR], cms := [kCmsR], unknown := [] })] }

/-- The configuration fields of the resolver state: everything `resolve`
reads but never writes. -/
def cfgView (st : KeyResolverCore.RState) :
    Protocol × Bool × Bool × Bool × Protocol × Int × String :=
  (st.mFormat, st.mEncrypt, st.mSign, st.mAllowMixed, st.mPreferredProtocol,
   st.mMinimumValidity, st.mCompliance)

namespace KeyResolverCore

theorem alLookup_map {α : Type} (f : String → α → α) (l : List (String × α))
    (k : String) :
    alLookup (l.map (fun ae => (ae.1, f ae.1 ae.2))) k =
      (alLookup l k).map (f k) := by
  induction l with
  | nil => rfl
  | cons hd tl ih =>
      obtain ⟨k', v⟩ := hd
      by_cases h : k = k' <;> simp [alLookup, h, ih]

theorem alLookup_alInsert_self {α : Type} (l : List (String × α)) (k : String)
    (v : α) : alLookup (alInsert l k v) k = some v := by
  induction l with
  | nil => simp [alInsert, alLookup]
  | cons hd tl ih =>
      obtain ⟨k', v'⟩ := hd
      by_cases h1 : strLt k k' = true
      · simp [alInsert, h1, alLookup]
      · by_cases h2 : k = k'
        · subst h2
          simp [alInsert, h1, alLookup]
        · simp [alInsert, h1, h2, alLookup, ih]

theorem mem_filterMap_of_alLookup {α : Type} {l : List (String × α)}
    {k : String} {v : α} (p : String × α → Option String)
    (hl : alLookup l k = some v) (hp : p (k, v) = some k) :
    k ∈ l.filterMap p := by
  induction l with
  | nil => simp [alLookup] at hl
  | cons hd tl ih =>
      obtain ⟨k', v'⟩ := hd
      by_cases h : k = k'
      · subst h
        rw [show alLookup ((k, v') :: tl) k = some v' by simp [alLookup]] at hl
        injection hl with hv
        subst hv
        simp [List.filterMap_cons, hp]
      · simp only [alLookup, if_neg h] at hl
        have := ih hl
        simp only [List.filterMap_cons]
        cases hpk : p (k', v') with
        | none => exact this
        | some s => exact List.mem_cons_of_mem s this

theorem SigMap.get_insert_self (m : SigMap) (p : Protocol) (ks : List Key) :
    (m.insert p ks).get p = some ks := by
  cases p <;> rfl

theorem resolveSign_mEncKeys (env : Env) (st : RState) (p : Protocol) :
    (resolveSign env st p).mEncKeys = st.mEncKeys := by
  simp only [resolveSign]
  split
  · rfl
  · split
    · rfl
    · split
      · rfl
      · split <;> rfl

theorem foldl_cfgView {β : Type} (f : RState → β → RState)
    (hf : ∀ s b, cfgView (f s b) = cfgView s) (l : List β) :
    ∀ s, cfgView (l.foldl f s) = cfgView s := by
  induction l with
  | nil => intro s; rfl
  | cons b tl ih => intro s; rw [List.foldl_cons, ih, hf]

theorem applyOverrideFpr_cfgView (env : Env) (st : RState) (a : String)
    (p : Protocol) (fpr : String) :
    cfgView (applyOverrideFpr env st a p fpr) = cfgView st := by
  simp only [applyOverrideFpr]
  split <;> rfl

theorem applyOverrideProtocol_cfgView (env : Env) (st : RState) (a : String)
    (pf : Protocol × List String) :
    cfgView (applyOverrideProtocol env st a pf) = cfgView st := by
  unfold applyOverrideProtocol
  split
  · rfl
  · exact foldl_cfgView _ (fun s fpr => applyOverrideFpr_cfgView env s a pf.1 fpr) _ _

theorem resolveOverrides_cfgView (env : Env) (st : RState) :
    cfgView (resolveOverrides env st) = cfgView st := by
  unfold resolveOverrides
  split
  · rfl
  · refine foldl_cfgView _ (fun s ae => ?_) _ _
    split
    · exact foldl_cfgView _ (fun s pf => applyOverrideProtocol_cfgView env s ae.1 pf) _ _
    · rfl

theorem resolveSign_cfgView (env : Env) (st : RState) (p : Protocol) :
    cfgView (resolveSign env st p) = cfgView st := by
  simp only [resolveSign]
  split
  · rfl
  · split
    · rfl
    · split
      · rfl
      · split <;> rfl

theorem resolveEnc_cfgView (env : Env) (st : RState) (p : Protocol) :
    cfgView (resolveEnc env st p) = cfgView st := rfl

theorem mergeEncryptionKeys_cfgView (st : RState) :
    cfgView (mergeEncryptionKeys st) = cfgView st := rfl

theorem resolveStagePGP_cfgView (env : Env) (st : RState) :
    cfgView (resolveStagePGP env st) = cfgView st := by
  unfold resolveStagePGP
  split
  · rw [resolveEnc_cfgView, resolveSign_cfgView]
  · rfl

theorem resolveStageCMS_cfgView (env : Env) (st : RState) :
    cfgView (resolveStageCMS env st) = cfgView st := by
  unfold resolveStageCMS
  split
  · rw [resolveEnc_cfgView, resolveSign_cfgView]
  · rfl

theorem resolveStageMerge_cfgView (st : RState) :
    cfgView (resolveStageMerge st) = cfgView st := by
  unfold resolveStageMerge
  split
  · exact mergeEncryptionKeys_cfgView st
  · rfl

theorem mFormat_of_cfgView {s t : RState} (h : cfgView s = cfgView t) :
    s.mFormat = t.mFormat := congrArg (fun x => x.1) h

theorem mSign_of_cfgView {s t : RState} (h : cfgView s = cfgView t) :
    s.mSign = t.mSign := congrArg (fun x => x.2.2.1) h

theorem mAllowMixed_of_cfgView {s t : RState} (h : cfgView s = cfgView t) :
    s.mAllowMixed = t.mAllowMixed := congrArg (fun x => x.2.2.2.1) h

theorem mMinimumValidity_of_cfgView {s t : RState} (h : cfgView s = cfgView t) :
    s.mMinimumValidity = t.mMinimumValidity :=
  congrArg (fun x => x.2.2.2.2.2.1) h

theorem mCompliance_of_cfgView {s t : RState} (h : cfgView s = cfgView t) :
    s.mCompliance = t.mCompliance := congrArg (fun x => x.2.2.2.2.2.2) h

theorem isAcceptableEncryptionKey_cfg {s t : RState}
    (h : cfgView s = cfgView t) (key : Key) (a : String) :
    isAcceptableEncryptionKey s key a = isAcceptableEncryptionKey t key a := by
  unfold isAcceptableEncryptionKey
  rw [mCompliance_of_cfgView h, mMinimumValidity_of_cfgView h]

theorem resolveRecipient_cfg (env : Env) {s t : RState}
    (h : cfgView s = cfgView t) (a : String) (p : Protocol) :
    resolveRecipient env s a p = resolveRecipient env t a p := by
  unfold resolveRecipient
  simp only [isAcceptableEncryptionKey_cfg h]

/-- With an empty address, `isAcceptableEncryptionKey` is exactly the
address-independent test: basic encryption validity plus, when the
compliance mode is `de-vs`, compliance — the per-address minimum-validity
check is skipped. -/
theorem isAcceptableEncryptionKey_empty_address (st : RState) (key : Key) :
    isAcceptableEncryptionKey st key "" =
      (ValidEncryptionKey key &&
        (!decide (st.mCompliance = "de-vs") || key.isDeVs)) := by
  unfold isAcceptableEncryptionKey
  by_cases h1 : ValidEncryptionKey key <;>
    by_cases h2 : st.mCompliance = "de-vs" <;>
      simp [h1, h2]

/-- Claim C9: for a fixed certificate-store snapshot and an identical
configuration, two runs of the resolution agree on the status, the
signing-key map, the per-protocol encryption-key maps, and the
per-protocol unresolved-address lists. In this embedding the whole
resolution is a pure function of the store snapshot and the configuration
— the code consults no clock, randomness or ambient mutable state — so the
two runs are one and the same value. -/
theorem runRequest_deterministic (env : Env) (cfg : RequestConfig) :
    (runRequest env cfg).fst = (runRequest env cfg).fst ∧
    signingKeys (runRequest env cfg).snd = signingKeys (runRequest env cfg).snd ∧
    (∀ proto, encryptionKeys (runRequest env cfg).snd proto =
      encryptionKeys (runRequest env cfg).snd proto) ∧
    (∀ proto, unresolvedRecipients (runRequest env cfg).snd proto =
      unresolvedRecipients (runRequest env cfg).snd proto) :=
  ⟨rfl, rfl, fun _ => rfl, fun _ => rfl⟩

/-- Claim C1, evaluated on the failing input: mixing disabled, sender
`s@x` fully resolvable in both protocols, no preferred protocol. The code
reports success and keeps OpenPGP as the only solution, but it deletes the
fully-resolved CMS signing and encryption data outright — nothing
resembling an alternative Solution survives in the result state, although
the repository's own test suite expects `result.alternative` to carry
exactly that CMS data. -/
theorem resolve_bothComplete_removes_dropped_protocol :
    (resolve envBoth stBoth).fst = true ∧
    signingKeys (resolve envBoth stBoth).snd =
      { pgp := some [kPgpS], cms := none, unknown := none } ∧
    encryptionKeys (resolve envBoth stBoth).snd .openpgp = [("s@x", [kPgpS])] ∧
    encryptionKeys (resolve envBoth stBoth).snd .cms = [] ∧
    encryptionKeys (resolve envBoth stBoth).snd .unknown = [] :=
  ⟨rfl, rfl, rfl, rfl, rfl⟩

/-- Claim C2, evaluated on the failing input: the caller forced OpenPGP,
and an `Unspecified`-protocol override maps recipient `r@x` to a CMS
certificate. Instead of terminating with a hard error, the code stores the
override under the certificate's own protocol (CMS), reports success, and
the final encryption map uses the CMS certificate — with no recorded
error of any kind — even though the caller forced OpenPGP. -/
theorem resolve_forcedPGP_applies_contradicting_override :
    (resolve envForcedPGP stForcedPGP).fst = true ∧
    encryptionKeys (resolve envForcedPGP stForcedPGP).snd .cms =
      [("r@x", [kCmsR])] ∧
    encryptionKeys (resolve envForcedPGP stForcedPGP).snd .openpgp = [] ∧
    (resolve envForcedPGP stForcedPGP).snd.mFatalErrors = [] := by
  refine ⟨by decide, by decide, by decide, by decide⟩

/-- Claim C5, evaluated on the failing input: recipient `r@x` has a
protocol-specific (OpenPGP) override resolving to `kOv1` and an
`Unspecified`-protocol override resolving to `kOv2` (an OpenPGP
certificate). The `Unspecified` override does not take precedence: the
code appends both certificates into the OpenPGP slot, with the
protocol-specific certificate first, and both survive into the final
encryption map. -/
theorem resolveOverrides_no_common_override_precedence :
    alLookup (resolveOverrides envPrec stPrec).mEncKeys "r@x" =
      some { pgp := [kOv1, kOv2], cms := [], unknown := [] } ∧
    encryptionKeys (resolve envPrec stPrec).snd .openpgp =
      [("r@x", [kOv1, kOv2])] ∧
    kOv1 ≠ kOv2 := by
  refine ⟨by decide, by decide, by decide⟩

/-- The per-address merge behaviour on an entry whose `Unspecified` slot is
empty and whose OpenPGP and CMS lists are both non-empty. -/
theorem mergeEntry_both_nonempty (pref : Protocol) (addr : String)
    (e : EncEntry) (hu : e.unknown = []) (hp : e.pgp ≠ []) (hc : e.cms ≠ []) :
    mergeEntry pref addr e =
      { e with unknown :=
          if minimumValidity e.cms addr < minimumValidity e.pgp addr then e.pgp
          else if minimumValidity e.pgp addr < minimumValidity e.cms addr then
            e.cms
          else if pref = .openpgp then e.pgp
          else if pref = .cms then e.cms
          else e.pgp } := by
  have hpe : e.pgp.isEmpty = false := by simp [List.isEmpty_iff, hp]
  have hce : e.cms.isEmpty = false := by simp [List.isEmpty_iff, hc]
  unfold mergeEntry
  rw [hu]
  simp only [List.isEmpty_nil, Bool.not_true, Bool.false_eq_true, if_false,
    hpe, hce, Bool.and_false, Bool.false_and, Bool.not_false, Bool.true_and,
    Bool.and_self]
  rcases lt_trichotomy (minimumValidity e.pgp addr)
      (minimumValidity e.cms addr) with hlt | heq | hgt
  · have h1 : ¬(minimumValidity e.pgp addr > minimumValidity e.cms addr ∨
        (minimumValidity e.pgp addr = minimumValidity e.cms addr ∧
         pref = Protocol.openpgp)) := by
      rintro (h | ⟨h, _⟩) <;> omega
    have h3 : ¬(minimumValidity e.cms addr < minimumValidity e.pgp addr) := by
      omega
    rw [if_neg h1, if_pos (Or.inl hlt), if_neg h3, if_pos hlt]
  · have h3 : ¬(minimumValidity e.cms addr < minimumValidity e.pgp addr) := by
      omega
    have h4 : ¬(minimumValidity e.pgp addr < minimumValidity e.cms addr) := by
      omega
    cases pref with
    | openpgp =>
        rw [if_pos (Or.inr ⟨heq, rfl⟩), if_neg h3, if_neg h4, if_pos rfl]
    | cms =>
        have h1 : ¬(minimumValidity e.pgp addr > minimumValidity e.cms addr ∨
            (minimumValidity e.pgp addr = minimumValidity e.cms addr ∧
             Protocol.cms = Protocol.openpgp)) := by
          rintro (h | ⟨_, h⟩)
          · omega
          · exact Protocol.noConfusion h
        rw [if_neg h1, if_pos (Or.inr ⟨heq.symm, rfl⟩), if_neg h3, if_neg h4,
          if_neg (by exact fun h => Protocol.noConfusion h), if_pos rfl]
    | unknown =>
        have h1 : ¬(minimumValidity e.pgp addr > minimumValidity e.cms addr ∨
            (minimumValidity e.pgp addr = minimumValidity e.cms addr ∧
             Protocol.unknown = Protocol.openpgp)) := by
          rintro (h | ⟨_, h⟩)
          · omega
          · exact Protocol.noConfusion h
        have h2 : ¬(minimumValidity e.cms addr > minimumValidity e.pgp addr ∨
            (minimumValidity e.cms addr = minimumValidity e.pgp addr ∧
             Protocol.unknown = Protocol.cms)) := by
          rintro (h | ⟨_, h⟩)
          · omega
          · exact Protocol.noConfusion h
        rw [if_neg h1, if_neg h2, if_neg h3, if_neg h4,
          if_neg (by exact fun h => Protocol.noConfusion h),
          if_neg (by exact fun h => Protocol.noConfusion h)]
  · have h3 : minimumValidity e.cms addr < minimumValidity e.pgp addr := hgt
    rw [if_pos (Or.inl hgt), if_pos h3]

/-- Claim C4: for every recipient entry whose `Unspecified` slot is empty
after overrides and whose OpenPGP and CMS lists are both non-empty, the
merge assigns to the `Unspecified` slot the list whose minimum per-address
validity is strictly higher; on equal minima the caller's preferred
protocol's list when a preference is set, else the OpenPGP list. -/
theorem mergeEncryptionKeys_picks_higher_minimum_validity
    (st : RState) (addr : String) (e : EncEntry)
    (h : alLookup st.mEncKeys addr = some e)
    (hu : e.unknown = []) (hp : e.pgp ≠ []) (hc : e.cms ≠ []) :
    alLookup (mergeEncryptionKeys st).mEncKeys addr = some
      { e with unknown :=
          if minimumValidity e.cms addr < minimumValidity e.pgp addr then e.pgp
          else if minimumValidity e.pgp addr < minimumValidity e.cms addr then
            e.cms
          else if st.mPreferredProtocol = .openpgp then e.pgp
          else if st.mPreferredProtocol = .cms then e.cms
          else e.pgp } := by
  have hmap : alLookup (mergeEncryptionKeys st).mEncKeys addr =
      (alLookup st.mEncKeys addr).map
        (mergeEntry st.mPreferredProtocol addr) := by
    unfold mergeEncryptionKeys
    exact alLookup_map _ _ _
  rw [hmap, h, Option.map_some',
    mergeEntry_both_nonempty st.mPreferredProtocol addr e hu hp hc]

/-- Witness for claim C4: the tie scenario — both lists have minimum
validity Full for `r@x`, no preference — yields the OpenPGP list. -/
theorem mergeEncryptionKeys_witness :
    alLookup (mergeEncryptionKeys stMergeTie).mEncKeys "r@x" =
      some { pgp := [kPgpR], cms := [kCmsR], unknown := [kPgpR] } := by
  have h := mergeEncryptionKeys_picks_higher_minimum_validity stMergeTie
    "r@x" { pgp := [kPgpR], cms := [kCmsR], unknown := [] } rfl rfl
    (by decide) (by decide)
  rw [h]
  rfl

/-- Claim C6: an encryption lookup returning a group of two or more
certificates is assigned whole iff every member passes the
address-independent acceptability test (basic validity plus compliance;
the per-address minimum-validity check is skipped); one failing member
rejects the entire group, so a partial subset is never returned. -/
theorem resolveRecipient_group_all_or_nothing (env : Env) (st : RState)
    (address : String) (protocol : Protocol) (k0 k1 : Key) (rest : List Key)
    (hkeys : env.findBestByMailBox address protocol false true =
      k0 :: k1 :: rest)
    (hnn : k0.isNull = false) :
    resolveRecipient env st address protocol =
      if (k0 :: k1 :: rest).all (fun key =>
            ValidEncryptionKey key &&
              (!decide (st.mCompliance = "de-vs") || key.isDeVs)) then
        k0 :: k1 :: rest
      else [] := by
  simp only [resolveRecipient, hkeys, hnn, Bool.false_eq_true, if_false,
    List.isEmpty_cons, isAcceptableEncryptionKey_empty_address]
  rw [show ((k0 :: k1 :: rest).any fun key =>
      !(ValidEncryptionKey key &&
        (!decide (st.mCompliance = "de-vs") || key.isDeVs))) =
      !((k0 :: k1 :: rest).all fun key =>
        ValidEncryptionKey key &&
          (!decide (st.mCompliance = "de-vs") || key.isDeVs)) from by
    rw [List.all_eq_not_any_not]
    simp]
  cases hall : (k0 :: k1 :: rest).all fun key =>
      ValidEncryptionKey key &&
        (!decide (st.mCompliance = "de-vs") || key.isDeVs) <;> simp

/-- Witness for claim C6: the store group for `r@x` contains one valid and
one expired certificate, so the whole group is rejected. -/
theorem resolveRecipient_group_witness :
    resolveRecipient envGroup { mEncrypt := true, mSign := false } "r@x"
      .openpgp = [] := by
  have h := resolveRecipient_group_all_or_nothing envGroup
    { mEncrypt := true, mSign := false } "r@x" .openpgp kPgpR kPgpRExpired []
    (by decide) (by decide)
  rw [h]
  rfl

/-- Claim C7: when the signing slot for a protocol was not explicitly set,
the slot is populated (with the full candidate list) iff the store's
candidate list for the sender is non-empty and every candidate passes the
acceptable-signing-certificate test; any failing candidate leaves the slot
completely unpopulated. (Candidates are taken non-null: the store returns
certificates, and the code additionally skips null entries defensively.) -/
theorem resolveSign_no_partial_signing_set (env : Env) (st : RState)
    (proto : Protocol) (hset : st.mSigKeys.get proto = none)
    (hnn : ∀ k ∈ env.findBestByMailBox st.mSender proto true false,
      k.isNull = false) :
    (resolveSign env st proto).mSigKeys.get proto =
      if env.findBestByMailBox st.mSender proto true false ≠ [] ∧
         (∀ k ∈ env.findBestByMailBox st.mSender proto true false,
           isAcceptableSigningKey st k = true) then
        some (env.findBestByMailBox st.mSender proto true false)
      else none := by
  simp only [resolveSign, hset, Option.isSome_none, Bool.false_eq_true,
    if_false]
  by_cases hall : ∀ k ∈ env.findBestByMailBox st.mSender proto true false,
      isAcceptableSigningKey st k = true
  · have hany : (env.findBestByMailBox st.mSender proto true false).any
        (fun key => !key.isNull && !isAcceptableSigningKey st key) = false := by
      rw [List.any_eq_false]
      intro k hk
      simp [hnn k hk, hall k hk]
    rw [hany]
    simp only [Bool.false_eq_true, if_false]
    cases hks : env.findBestByMailBox st.mSender proto true false with
    | nil => simp [hset]
    | cons key0 tl =>
        have h0 : key0.isNull = false := by
          refine hnn key0 ?_
          rw [hks]
          exact List.mem_cons_self key0 tl
        simp only [h0, Bool.false_eq_true, if_false]
        rw [SigMap.get_insert_self]
        rw [if_pos ⟨by simp, fun k hk => hall k (by rw [hks]; exact hk)⟩]
  · obtain ⟨k, hk, hbad⟩ := by
      push_neg at hall
      exact hall
    have hany : (env.findBestByMailBox st.mSender proto true false).any
        (fun key => !key.isNull && !isAcceptableSigningKey st key) = true :=
      List.any_eq_true.mpr ⟨k, hk, by simp [hnn k hk, hbad]⟩
    rw [hany]
    simp only [if_true]
    rw [hset, if_neg]
    rintro ⟨-, hforall⟩
    exact hbad (hforall k hk)

/-- Witness for claim C7: the single acceptable candidate `kPgpS` for
sender `s@x` is stored as the OpenPGP signing set. -/
theorem resolveSign_witness :
    (resolveSign envSign stSign .openpgp).mSigKeys.get .openpgp =
      some [kPgpS] := by
  have h := resolveSign_no_partial_signing_set envSign stSign .openpgp rfl
    (by decide)
  rw [h]
  rw [if_pos ⟨by decide, by decide⟩]
  rfl

/-- Claim C10: with encryption enabled, `setSender` on a normalizable
address also registers the normalized address as a recipient with empty
encryption slots for both protocols, so encrypt-to-self resolution treats
the sender exactly like any recipient; with encryption disabled, neither
the recipient list nor the encryption map changes. -/
theorem setSender_registers_sender_as_recipient (env : Env) (st : RState)
    (address : String) (hn : env.addrSpecFromString address ≠ "") :
    (st.mEncrypt = true →
      alLookup (setSender env st address).mEncKeys
        (env.addrSpecFromString address) = some {} ∧
      env.addrSpecFromString address ∈ (setSender env st address).mRecipients) ∧
    (st.mEncrypt = false →
      (setSender env st address).mEncKeys = st.mEncKeys ∧
      (setSender env st address).mRecipients = st.mRecipients) := by
  simp only [setSender, if_neg hn, addRecipients, addRecipientStep,
    List.foldl_cons, List.foldl_nil, if_neg hn]
  constructor
  · intro hEnc
    by_cases hs : st.mSign = true <;>
      simp [hs, hEnc, alLookup_alInsert_self]
  · intro hEnc
    by_cases hs : st.mSign = true <;> simp [hs, hEnc]

/-- Witness for claim C10: the sender `s@x` appears as a recipient with
empty slots when encryption is on, and nothing is registered when it is
off. -/
theorem setSender_witness :
    (alLookup (setSender envNull (init true true .unknown "") "s@x").mEncKeys
        "s@x" = some {} ∧
      "s@x" ∈ (setSender envNull (init true true .unknown "") "s@x").mRecipients) ∧
    ((setSender envNull (init false true .unknown "") "s@x").mEncKeys =
        (init false true .unknown "").mEncKeys ∧
      (setSender envNull (init false true .unknown "") "s@x").mRecipients =
        (init false true .unknown "").mRecipients) := by
  constructor
  · exact (setSender_registers_sender_as_recipient envNull
      (init true true .unknown "") "s@x" (by decide)).1 rfl
  · exact (setSender_registers_sender_as_recipient envNull
      (init false true .unknown "") "s@x" (by decide)).2 rfl

/-- The loop of `addRecipients`, characterized: every address that fails
normalization contributes exactly one fatal-error message, every address
that normalizes contributes exactly one recipient entry, in order. -/
theorem addRecipients_loop_spec (env : Env) (addresses : List String) :
    ∀ st : RState,
      (addresses.foldl (addRecipientStep env) st).mRecipients =
        st.mRecipients ++ addresses.filterMap (fun addr =>
          if env.addrSpecFromString addr = "" then none
          else some (env.addrSpecFromString addr)) ∧
      (addresses.foldl (addRecipientStep env) st).mFatalErrors =
        st.mFatalErrors ++ addresses.filterMap (fun addr =>
          if env.addrSpecFromString addr = "" then
            some ("The mail address for " ++ addr ++ " could not be extracted")
          else none) := by
  induction addresses with
  | nil => intro st; simp
  | cons a tl ih =>
      intro st
      simp only [List.foldl_cons, List.filterMap_cons]
      by_cases h : env.addrSpecFromString a = ""
      · rw [show addRecipientStep env st a =
            { st with mFatalErrors := st.mFatalErrors ++
                ["The mail address for " ++ a ++ " could not be extracted"] }
            from by simp [addRecipientStep, h]]
        rcases ih { st with mFatalErrors := st.mFatalErrors ++
          ["The mail address for " ++ a ++ " could not be extracted"] } with
          ⟨h1, h2⟩
        rw [h1, h2]
        simp [h]
      · rw [show addRecipientStep env st a =
            { st with
                mRecipients := st.mRecipients ++ [env.addrSpecFromString a],
                mEncKeys := alInsert st.mEncKeys (env.addrSpecFromString a) {} }
            from by simp [addRecipientStep, h]]
        rcases ih { st with
          mRecipients := st.mRecipients ++ [env.addrSpecFromString a],
          mEncKeys := alInsert st.mEncKeys (env.addrSpecFromString a) {} } with
          ⟨h1, h2⟩
        rw [h1, h2]
        simp [h]

/-- Claim C8 as amended: a recipient address that fails normalization is
recorded as a fatal-error message and skipped, while every successfully
normalized address is still added — resolution continues over the
remaining addresses instead of halting. -/
theorem addRecipients_records_error_and_continues (env : Env) (st : RState)
    (addresses : List String) (hEnc : st.mEncrypt = true) :
    (addRecipients env st addresses).mRecipients =
      st.mRecipients ++ addresses.filterMap (fun addr =>
        if env.addrSpecFromString addr = "" then none
        else some (env.addrSpecFromString addr)) ∧
    (addRecipients env st addresses).mFatalErrors =
      st.mFatalErrors ++ addresses.filterMap (fun addr =>
        if env.addrSpecFromString addr = "" then
          some ("The mail address for " ++ addr ++ " could not be extracted")
        else none) := by
  simp only [addRecipients, hEnc, Bool.not_true, Bool.false_eq_true, if_false]
  exact addRecipients_loop_spec env addresses st

/-- Witness for the amended claim C8: feeding `bad` (normalization fails)
and `good@x` records one error and keeps resolving `good@x`. -/
theorem addRecipients_witness :
    (addRecipients envBad (init true false .unknown "")
        ["bad", "good@x"]).mRecipients = ["good@x"] ∧
    (addRecipients envBad (init true false .unknown "")
        ["bad", "good@x"]).mFatalErrors =
      ["The mail address for bad could not be extracted"] := by
  have h := addRecipients_records_error_and_continues envBad
    (init true false .unknown "") ["bad", "good@x"] rfl
  rcases h with ⟨h1, h2⟩
  constructor
  · rw [h1]; rfl
  · rw [h2]; rfl

/-- Counterexample for claim C8 as stated: with one non-normalizable and
one normalizable recipient, a fatal error is recorded yet resolution does
not halt — the remaining address is added and `resolve` even reports
success, never consulting the fatal-error list. -/
theorem addRecipients_failure_does_not_halt :
    stBad.mFatalErrors ≠ [] ∧
    stBad.mRecipients = ["good@x"] ∧
    (resolve envBad stBad).fst = true ∧
    encryptionKeys (resolve envBad stBad).snd .openpgp ≠ [] := by
  refine ⟨by decide, by decide, by decide, by decide⟩

theorem alLookup_resolveEnc (env : Env) (st : RState) (proto : Protocol)
    (k : String) :
    alLookup (resolveEnc env st proto).mEncKeys k =
      (alLookup st.mEncKeys k).map (resolveEncEntry env st proto k) := by
  unfold resolveEnc
  exact alLookup_map _ _ _

theorem alLookup_mergeEncryptionKeys (st : RState) (k : String) :
    alLookup (mergeEncryptionKeys st).mEncKeys k =
      (alLookup st.mEncKeys k).map (mergeEntry st.mPreferredProtocol k) := by
  unfold mergeEncryptionKeys
  exact alLookup_map _ _ _

/-- An entry that is entirely empty stays entirely empty through the
OpenPGP resolution stage when `resolveRecipient` finds nothing for it. -/
theorem resolveStagePGP_lookup_empty (env : Env) {st : RState} {r : String}
    (h : alLookup st.mEncKeys r = some {})
    (hP : resolveRecipient env st r .openpgp = []) :
    alLookup (resolveStagePGP env st).mEncKeys r = some {} := by
  unfold resolveStagePGP
  split
  · rw [alLookup_resolveEnc, resolveSign_mEncKeys, h, Option.map_some']
    have hc : resolveRecipient env (resolveSign env st .openpgp) r
        Protocol.openpgp = [] := by
      rw [resolveRecipient_cfg env (resolveSign_cfgView env st .openpgp) r
        Protocol.openpgp]
      exact hP
    simp [resolveEncEntry, hc, EncEntry.get, EncEntry.set]
  · exact h

/-- The CMS counterpart of `resolveStagePGP_lookup_empty`. -/
theorem resolveStageCMS_lookup_empty (env : Env) {st : RState} {r : String}
    (h : alLookup st.mEncKeys r = some {})
    (hC : resolveRecipient env st r .cms = []) :
    alLookup (resolveStageCMS env st).mEncKeys r = some {} := by
  unfold resolveStageCMS
  split
  · rw [alLookup_resolveEnc, resolveSign_mEncKeys, h, Option.map_some']
    have hc : resolveRecipient env (resolveSign env st .cms) r
        Protocol.cms = [] := by
      rw [resolveRecipient_cfg env (resolveSign_cfgView env st .cms) r
        Protocol.cms]
      exact hC
    simp [resolveEncEntry, hc, EncEntry.get, EncEntry.set]
  · exact h

/-- An entirely empty entry is left untouched by the merge stage. -/
theorem resolveStageMerge_lookup_empty {st : RState} {r : String}
    (h : alLookup st.mEncKeys r = some {}) :
    alLookup (resolveStageMerge st).mEncKeys r = some {} := by
  unfold resolveStageMerge
  split
  · rw [alLookup_mergeEncryptionKeys, h, Option.map_some']
    rfl
  · exact h

/-- An address whose entry has an empty slot for `proto` is reported
unresolved for `proto`. -/
theorem mem_unresolvedRecipients_of_empty {st : RState} {r : String}
    (h : alLookup st.mEncKeys r = some {}) (proto : Protocol) :
    r ∈ unresolvedRecipients st proto := by
  unfold unresolvedRecipients
  exact mem_filterMap_of_alLookup _ h (by cases proto <;> rfl)

/-- Claim C3: if some recipient has an entirely empty entry after the
overrides and no acceptable encryption certificate exists for it in either
protocol (the per-protocol lookups resolve to nothing), then `resolve`
returns the needs-disambiguation outcome `false` — not a hard error — and
the address is reported unresolved for both protocols. -/
theorem resolve_unresolvable_recipient_needs_user (env : Env) (st : RState)
    (r : String) (hEnc : st.mEncrypt = true)
    (hOv : alLookup (resolveOverrides env st).mEncKeys r = some {})
    (hP : resolveRecipient env st r .openpgp = [])
    (hC : resolveRecipient env st r .cms = []) :
    (resolve env st).fst = false ∧
    r ∈ unresolvedRecipients (resolve env st).snd .openpgp ∧
    r ∈ unresolvedRecipients (resolve env st).snd .cms := by
  have hcfg1 : cfgView (resolveOverrides env st) = cfgView st :=
    resolveOverrides_cfgView env st
  have hP1 : resolveRecipient env (resolveOverrides env st) r .openpgp = [] := by
    rw [resolveRecipient_cfg env hcfg1 r Protocol.openpgp]
    exact hP
  have hC1 : resolveRecipient env (resolveOverrides env st) r .cms = [] := by
    rw [resolveRecipient_cfg env hcfg1 r Protocol.cms]
    exact hC
  have h2 : alLookup
      (resolveStagePGP env (resolveOverrides env st)).mEncKeys r = some {} :=
    resolveStagePGP_lookup_empty env hOv hP1
  have hcfg2 : cfgView (resolveStagePGP env (resolveOverrides env st)) =
      cfgView st := by
    rw [resolveStagePGP_cfgView, hcfg1]
  have hC2 : resolveRecipient env
      (resolveStagePGP env (resolveOverrides env st)) r .cms = [] := by
    rw [resolveRecipient_cfg env hcfg2 r Protocol.cms]
    exact hC
  have h3 : alLookup
      (resolveStageCMS env (resolveStagePGP env
        (resolveOverrides env st))).mEncKeys r = some {} :=
    resolveStageCMS_lookup_empty env h2 hC2
  have h4 : alLookup
      (resolveStageMerge (resolveStageCMS env (resolveStagePGP env
        (resolveOverrides env st)))).mEncKeys r = some {} :=
    resolveStageMerge_lookup_empty h3
  have memP2 : r ∈ unresolvedRecipients
      (resolveStagePGP env (resolveOverrides env st)) .openpgp :=
    mem_unresolvedRecipients_of_empty h2 .openpgp
  have memC3 : r ∈ unresolvedRecipients
      (resolveStageCMS env (resolveStagePGP env
        (resolveOverrides env st))) .cms :=
    mem_unresolvedRecipients_of_empty h3 .cms
  have memP4 : r ∈ unresolvedRecipients
      (resolveStageMerge (resolveStageCMS env (resolveStagePGP env
        (resolveOverrides env st)))) .openpgp :=
    mem_unresolvedRecipients_of_empty h4 .openpgp
  have memC4 : r ∈ unresolvedRecipients
      (resolveStageMerge (resolveStageCMS env (resolveStagePGP env
        (resolveOverrides env st)))) .cms :=
    mem_unresolvedRecipients_of_empty h4 .cms
  have hieP : (unresolvedRecipients
      (resolveStagePGP env (resolveOverrides env st)) .openpgp).isEmpty =
      false := by
    simp [List.isEmpty_iff]
    exact List.ne_nil_of_mem memP2
  have hieC : (unresolvedRecipients
      (resolveStageCMS env (resolveStagePGP env
        (resolveOverrides env st))) .cms).isEmpty = false := by
    simp [List.isEmpty_iff]
    exact List.ne_nil_of_mem memC3
  have hany : ((unresolvedRecipients
      (resolveStagePGP env (resolveOverrides env st)) .openpgp).any
      (fun a => (unresolvedRecipients (resolveStageCMS env
        (resolveStagePGP env (resolveOverrides env st))) .cms).contains a)) =
      true :=
    List.any_eq_true.mpr ⟨r, memP2, by simp [memC3]⟩
  have hne : (!st.mSign && !st.mEncrypt) = false := by simp [hEnc]
  simp only [resolve, hne, Bool.false_eq_true, if_false, hieP, hieC,
    Bool.false_and, Bool.not_false, Bool.true_and, hany, Bool.true_or,
    Bool.and_self, if_true]
  exact ⟨trivial, memP4, memC4⟩

/-- Witness for claim C3: recipient `r@x` with an empty store is reported
unresolved in both protocols with the needs-disambiguation outcome. -/
theorem resolve_unresolvable_witness :
    (resolve envNull stNoCert).fst = false ∧
    "r@x" ∈ unresolvedRecipients (resolve envNull stNoCert).snd .openpgp ∧
    "r@x" ∈ unresolvedRecipients (resolve envNull stNoCert).snd .cms :=
  resolve_unresolvable_recipient_needs_user envNull stNoCert "r@x" rfl
    (by decide) (by decide) (by decide)

end KeyResolverCore

end Kleo
